import Mathlib

/-!
Verification of the book-requests search-merge and request-reconciliation core.

The definitions below are a shallow embedding of the TypeScript client
(readarrClient.ts and its later revision): JS values that can be a string,
a number or undefined are modelled by `JStr`; JS objects used as opaque
records are modelled by association lists of `Val`; maps are modelled as
functions `String -> Option _`; remote calls are modelled by passing the
remote responses and outcomes as explicit arguments and returning the list
of mutating calls that were issued.
-/

namespace BookRequests

/-- A JS value that is a string, a number, or undefined (used for the id-ish
book fields typed `string | number | undefined`). -/
inductive JStr where
  | s (v : String)
  | n (v : Int)
  | undefv
deriving DecidableEq

/-- JS `String(value ?? "")`. -/
def JStr.toJsString : JStr → String
  | .s v => v
  | .n v => toString v
  | .undefv => ""

/-- JS truthiness for `string | number | undefined`. -/
def JStr.truthy : JStr → Bool
  | .s v => !v.isEmpty
  | .n v => v != 0
  | .undefv => false

/-- Inject an optional string field into `JStr`. -/
def jstrOfOptS : Option String → JStr
  | some v => .s v
  | none => .undefv

/-- Whitespace for the purposes of JS `trim`. -/
def chIsSpace (c : Char) : Bool := c == ' ' || c == '\t' || c == '\n' || c == '\r'

/-- JS `s.trim()`: drop leading and trailing whitespace. -/
def strTrim (s : String) : String :=
  String.mk (((s.toList.dropWhile chIsSpace).reverse.dropWhile chIsSpace).reverse)

/-- JS `s.toLowerCase()` (character-wise lowering). -/
def strLower (s : String) : String := String.mk (s.toList.map Char.toLower)

/-- `normalize` from the source: `String(value ?? "").trim().toLowerCase()`. -/
def normalize (v : JStr) : String := strLower (strTrim v.toJsString)

/-- Does the first character list lead the second one. -/
def leadsWith : List Char → List Char → Bool
  | [], _ => true
  | _ :: _, [] => false
  | a :: as, b :: bs => a == b && leadsWith as bs

/-- Does the first character list occur contiguously within the second one. -/
def occursWithin : List Char → List Char → Bool
  | needle, [] => needle.isEmpty
  | needle, c :: rest => leadsWith needle (c :: rest) || occursWithin needle rest

/-- JS `haystack.includes(needle)`. -/
def strIncludes (hay needle : String) : Bool := occursWithin needle.toList hay.toList

/-- A book record, covering the fields of both `ReadarrLookupBook` and
`ReadarrBook` from types.ts.  `authorObjName` is `author?.name`,
`bookFileObjId` is `bookFile?.id`, and the `stats` fields are
`statistics?.bookFileCount` / `statistics?.sizeOnDisk`. -/
structure RBook where
  id : Option Int := none
  title : Option String := none
  authorTitle : Option String := none
  authorName : Option String := none
  authorObjName : Option String := none
  foreignBookId : Option String := none
  goodreadsId : JStr := .undefv
  isbn13 : JStr := .undefv
  isbn : JStr := .undefv
  asin : Option String := none
  monitored : Option Bool := none
  bookFileId : Option Int := none
  bookFileObjId : Option Int := none
  statsBookFileCount : Option Int := none
  statsSizeOnDisk : Option Int := none
deriving DecidableEq

/-- JS `a || b || ... || dflt` over optional string fields (empty string is
falsy). -/
def firstTruthy : List (Option String) → String → String
  | [], dflt => dflt
  | x :: rest, dflt =>
    match x with
    | some v => if v.isEmpty then firstTruthy rest dflt else v
    | none => firstTruthy rest dflt

/-- `pickAuthor`: `authorTitle || authorName || author?.name || "Unknown author"`. -/
def pickAuthor (b : RBook) : String :=
  firstTruthy [b.authorTitle, b.authorName, b.authorObjName] "Unknown author"

/-- `pickTitle`: `title || "Untitled"`. -/
def pickTitle (b : RBook) : String := firstTruthy [b.title] "Untitled"

/-- The identity fields in the priority order of `pickKey`. -/
def idFields (b : RBook) : List JStr :=
  [jstrOfOptS b.foreignBookId, b.goodreadsId, b.isbn13, b.isbn, jstrOfOptS b.asin]

/-- The loop of `pickKey`: the first id whose normalization is non-empty
yields the key. -/
def firstIdKey : List JStr → Option String
  | [] => none
  | x :: rest =>
    if (normalize x).isEmpty then firstIdKey rest else some ("id:" ++ normalize x)

/-- `pickKey` from the source: first non-empty normalized id in priority
order, else a title/author key when the normalized title is non-empty, else
the empty string. -/
def pickKey (b : RBook) : String :=
  match firstIdKey (idFields b) with
  | some k => k
  | none =>
    if (normalize (jstrOfOptS b.title)).isEmpty then ""
    else "t:" ++ normalize (jstrOfOptS b.title) ++ "|a:" ++ normalize (.s (pickAuthor b))

/-- `pickIsbn13`: `String(isbn13 || isbn)` when truthy, else undefined. -/
def pickIsbn13 (b : RBook) : Option String :=
  if b.isbn13.truthy then some b.isbn13.toJsString
  else if b.isbn.truthy then some b.isbn.toJsString
  else none

/-- `pickGoodreadsId`: `String(goodreadsId)` when truthy, else undefined. -/
def pickGoodreadsId (b : RBook) : Option String :=
  if b.goodreadsId.truthy then some b.goodreadsId.toJsString else none

/-- `pickLookupKey`: `pickKey` when non-empty, else a title/author/isbn key. -/
def pickLookupKey (b : RBook) : String :=
  if !(pickKey b).isEmpty then pickKey b
  else
    "t:" ++ normalize (jstrOfOptS b.title) ++ "|a:" ++ normalize (.s (pickAuthor b)) ++
      "|i:" ++ normalize (jstrOfOptS (pickIsbn13 b))

/-- `hasFile`: any of explicit file id, embedded file object id, positive
file count, or positive size on disk. -/
def hasFile (b : RBook) : Bool :=
  if (match b.bookFileId with | some v => v != 0 | none => false) then true
  else if (match b.bookFileObjId with | some v => v != 0 | none => false) then true
  else if 0 < b.statsBookFileCount.getD 0 then true
  else 0 < b.statsSizeOnDisk.getD 0

/-- `ExistingInfo` from the source. -/
structure ExistingInfo where
  id : Int
  monitored : Bool
  hasFile : Bool
deriving DecidableEq

/-- The catalog index, keyed by identity. -/
abbrev EMap := String → Option ExistingInfo

def emptyEMap : EMap := fun _ => none

def msetE (m : EMap) (k : String) (v : ExistingInfo) : EMap :=
  fun q => if q == k then some v else m q

/-- One step of `mapExisting`: insert the book when its key is non-empty and
its id is present; `monitored` falls back to true when absent. -/
def mapExistingStep (m : EMap) (b : RBook) : EMap :=
  match b.id with
  | some i =>
    if (pickKey b).isEmpty then m
    else msetE m (pickKey b) ⟨i, b.monitored.getD true, hasFile b⟩
  | none => m

/-- `mapExisting` from the source. -/
def mapExisting (books : List RBook) : EMap := books.foldl mapExistingStep emptyEMap

/-- `matchesTerm`: case-insensitive substring match of the normalized term
against normalized title, author, isbn and goodreads id. -/
def matchesTerm (term : String) (b : RBook) : Bool :=
  if (normalize (.s term)).isEmpty then false
  else
    strIncludes (normalize (.s (pickTitle b))) (normalize (.s term)) ||
    strIncludes (normalize (.s (pickAuthor b))) (normalize (.s term)) ||
    strIncludes (normalize (jstrOfOptS (pickIsbn13 b))) (normalize (.s term)) ||
    strIncludes (normalize b.goodreadsId) (normalize (.s term))

/-- The two backend instances. -/
inductive Inst where
  | ebook
  | audio
deriving DecidableEq

/-- One per-instance slot of a unified search item. -/
structure InstanceView where
  available : Bool
  alreadyAdded : Bool
  existingId : Option Int := none
  monitored : Option Bool := none
  hasFile : Option Bool := none
  lookup : Option RBook := none
deriving DecidableEq

/-- A unified search item (the merge output record). -/
structure SearchItem where
  key : String
  title : String
  author : String
  isbn13 : Option String := none
  foreignBookId : Option String := none
  goodreadsId : Option String := none
  ebook : InstanceView
  audio : InstanceView
deriving DecidableEq

/-- The accumulating unified map of the merge. -/
abbrev IMap := String → Option SearchItem

def emptyIMap : IMap := fun _ => none

def msetI (m : IMap) (k : String) (v : SearchItem) : IMap :=
  fun q => if q == k then some v else m q

/-- The zero-value instance view (`available: false, alreadyAdded: false`). -/
def emptyView : InstanceView := { available := false, alreadyAdded := false }

def viewOf (inst : Inst) (it : SearchItem) : InstanceView :=
  match inst with
  | .ebook => it.ebook
  | .audio => it.audio

def setViewOf (inst : Inst) (it : SearchItem) (v : InstanceView) : SearchItem :=
  match inst with
  | .ebook => { it with ebook := v }
  | .audio => { it with audio := v }

/-- The fresh item seeded from the first record establishing an identity. -/
def seedItem (k : String) (b : RBook) : SearchItem :=
  { key := k, title := pickTitle b, author := pickAuthor b, isbn13 := pickIsbn13 b,
    foreignBookId := b.foreignBookId, goodreadsId := pickGoodreadsId b,
    ebook := emptyView, audio := emptyView }

/-- The instance view built by `ingest` for a lookup record. -/
def lookupView (existing : Option ExistingInfo) (b : RBook) : InstanceView :=
  { available := true,
    alreadyAdded := match existing with | some e => e.monitored && e.hasFile | none => false,
    existingId := existing.map (fun e => e.id),
    monitored := existing.map (fun e => e.monitored),
    hasFile := existing.map (fun e => e.hasFile),
    lookup := some b }

/-- One step of `ingest`: skip unresolvable keys, else fill this backend view
on the current (or freshly seeded) item. -/
def ingestStep (emap : EMap) (inst : Inst) (items : IMap) (b : RBook) : IMap :=
  if (pickKey b).isEmpty then items
  else
    msetI items (pickKey b)
      (setViewOf inst ((items (pickKey b)).getD (seedItem (pickKey b) b))
        (lookupView (emap (pickKey b)) b))

/-- `ingest` from the source. -/
def ingest (items : IMap) (lookup : List RBook) (emap : EMap) (inst : Inst) : IMap :=
  lookup.foldl (ingestStep emap inst) items

/-- The instance view built by `addExistingMatches` for an owned record. -/
def sweepView (e : ExistingInfo) : InstanceView :=
  { available := true, alreadyAdded := e.monitored && e.hasFile,
    existingId := some e.id, monitored := some e.monitored,
    hasFile := some e.hasFile, lookup := none }

/-- One step of `addExistingMatches`: add an owned record that matches the
term for an identity not already in the map. -/
def addExistingStep (emap : EMap) (inst : Inst) (term : String) (items : IMap) (b : RBook) : IMap :=
  if !matchesTerm term b then items
  else if (pickKey b).isEmpty then items
  else if (items (pickKey b)).isSome then items
  else
    match emap (pickKey b) with
    | none => items
    | some e => msetI items (pickKey b) (setViewOf inst (seedItem (pickKey b) b) (sweepView e))

/-- `addExistingMatches` from the source. -/
def addExistingMatches (items : IMap) (books : List RBook) (emap : EMap) (inst : Inst)
    (term : String) : IMap :=
  books.foldl (addExistingStep emap inst term) items

/-- The merge pipeline of `searchBooks` (later revision): ingest both lookup
result sets, then sweep both owned catalogs, ebook first. -/
def mergeSearch (ebookLookup audioLookup ebookCatalog audioCatalog : List RBook)
    (term : String) : IMap :=
  addExistingMatches
    (addExistingMatches
      (ingest (ingest emptyIMap ebookLookup (mapExisting ebookCatalog) .ebook)
        audioLookup (mapExisting audioCatalog) .audio)
      ebookCatalog (mapExisting ebookCatalog) .ebook term)
    audioCatalog (mapExisting audioCatalog) .audio term

/-- Result of processing one fetched page inside `lookupBooks`: the updated
seen-set and results, the number of records added from this page, and
whether the overall limit was reached (early return). -/
structure PageOut where
  seen : List String
  results : List RBook
  added : Nat
  reached : Bool
deriving DecidableEq

/-- The inner loop of `lookupBooks` over one page of data. -/
def procPage (limit : Nat) : List RBook → List String → List RBook → Nat → PageOut
  | [], seen, acc, added => ⟨seen, acc, added, false⟩
  | b :: rest, seen, acc, added =>
    if seen.contains (pickLookupKey b) then procPage limit rest seen acc added
    else
      if limit ≤ (acc ++ [b]).length then
        ⟨pickLookupKey b :: seen, acc ++ [b], added + 1, true⟩
      else procPage limit rest (pickLookupKey b :: seen) (acc ++ [b]) (added + 1)

/-- The page loop of `lookupBooks`; `fuel` counts the remaining pages out of
`maxPages`, `page` is the next page number to fetch. -/
def lbGo (pages : Nat → List RBook) (limit : Nat) : Nat → Nat → List String → List RBook → List RBook
  | 0, _, _, acc => acc
  | fuel + 1, page, seen, acc =>
    if (pages page).isEmpty then acc
    else
      if (procPage limit (pages page) seen acc 0).reached then
        (procPage limit (pages page) seen acc 0).results
      else if (procPage limit (pages page) seen acc 0).added == 0 then
        (procPage limit (pages page) seen acc 0).results
      else
        lbGo pages limit fuel (page + 1) (procPage limit (pages page) seen acc 0).seen
          (procPage limit (pages page) seen acc 0).results

/-- `Math.max(1, Math.ceil(limit / 5))`. -/
def maxPages (limit : Nat) : Nat := max 1 ((limit + 4) / 5)

/-- `lookupBooks` from the source, with the remote modelled as the function
`pages` from page number to returned records. -/
def lookupBooks (pages : Nat → List RBook) (limit : Nat) : List RBook :=
  lbGo pages limit (maxPages limit) 1 [] []

/-- The remote calls of `requestBook` that mutate or fetch state. -/
inductive RCall where
  | monitor
  | searchCmd
  | fetch
  | putFull
  | createPost
deriving DecidableEq

/-- Outcome of the re-request flow: reported success and the calls issued. -/
structure RRResult where
  success : Bool
  calls : List RCall
deriving DecidableEq

/-- Re-request mode of `requestBook` (`existingId` present): try the monitor
toggle and the search command independently; if either succeeded report
success, else fall back to fetch plus full update, whose failure alone is
fatal.  The four booleans are the outcomes of the four remote calls. -/
def requestBookRR (monitorOk searchOk fetchOk putOk : Bool) : RRResult :=
  if monitorOk || searchOk then ⟨true, [RCall.monitor, RCall.searchCmd]⟩
  else if !fetchOk then ⟨false, [RCall.monitor, RCall.searchCmd, RCall.fetch]⟩
  else ⟨putOk, [RCall.monitor, RCall.searchCmd, RCall.fetch, RCall.putFull]⟩

/-- A JS value inside an opaque record. -/
inductive Val where
  | str (s : String)
  | num (n : Int)
  | boolv (b : Bool)
  | obj (fields : List (String × Val))
  | nullv

/-- An opaque JS object, as an association list. -/
abbrev JRec := List (String × Val)

def getField : JRec → String → Option Val
  | [], _ => none
  | a :: t, k => if a.1 = k then some a.2 else getField t k

def removeField : JRec → String → JRec
  | [], _ => []
  | a :: t, k => if a.1 = k then removeField t k else a :: removeField t k

def setField (r : JRec) (k : String) (v : Val) : JRec := (k, v) :: removeField r k

/-- The create payload of `requestBook`: a shallow copy of the lookup record
with root folder, quality profile, `monitored: true` and
`addOptions.searchForNewBook: true` set, and the `id` field deleted. -/
def createPayload (lookup : JRec) (rootFolderPath : String) (qualityProfileId : Int) : JRec :=
  removeField
    (setField
      (setField
        (setField
          (setField lookup "rootFolderPath" (.str rootFolderPath))
          "qualityProfileId" (.num qualityProfileId))
        "monitored" (.boolv true))
      "addOptions" (.obj [("searchForNewBook", .boolv true)]))
    "id"

/-- A remote root-folder entry (`defaultFlag` models the `default` field). -/
structure RootFolder where
  id : Option Int := none
  path : Option String := none
  isDefault : Option Bool := none
  defaultFlag : Option Bool := none
deriving DecidableEq

/-- A remote quality-profile entry. -/
structure QualityProfile where
  id : Option Int := none
  name : Option String := none
  isDefault : Option Bool := none
  defaultFlag : Option Bool := none
deriving DecidableEq

/-- Resolved instance defaults. -/
structure Defaults where
  rootFolderPath : String
  qualityProfileId : Int
deriving DecidableEq

def truthyOB : Option Bool → Bool
  | some b => b
  | none => false

def rootErrorMsg : String := "Readarr does not have a default root folder configured."

def profileErrorMsg : String := "Readarr does not have a default quality profile configured."

/-- The remote part of `resolveDefaults`: pick the entry flagged default, or
else the first entry, from each listing; fail when the path or id is absent
or falsy. -/
def resolveDefaultsRemote (rootFolders : List RootFolder) (profiles : List QualityProfile) :
    Except String Defaults :=
  match (match rootFolders.find? (fun f => truthyOB f.isDefault || truthyOB f.defaultFlag) with
         | some f => some f
         | none => rootFolders.head?) with
  | none => .error rootErrorMsg
  | some root =>
    match root.path with
    | none => .error rootErrorMsg
    | some pth =>
      if pth.isEmpty then .error rootErrorMsg
      else
        match (match profiles.find? (fun p => truthyOB p.isDefault || truthyOB p.defaultFlag) with
               | some p => some p
               | none => profiles.head?) with
        | none => .error profileErrorMsg
        | some prof =>
          match prof.id with
          | none => .error profileErrorMsg
          | some i =>
            if i == 0 then .error profileErrorMsg
            else .ok ⟨pth, i⟩

/-- The per-base-URL defaults cache: value and timestamp. -/
abbrev DCache := String → Option (Defaults × Int)

def cacheTTL : Int := 10 * 60 * 1000

/-- A fresh `resolveDefaults` round-trip, updating the cache on success. -/
def resolveDefaultsFresh (cache : DCache) (now : Int) (baseUrl : String)
    (rootFolders : List RootFolder) (profiles : List QualityProfile) :
    Except String Defaults × DCache :=
  match resolveDefaultsRemote rootFolders profiles with
  | .ok v => (.ok v, fun q => if q == baseUrl then some (v, now) else cache q)
  | .error e => (.error e, cache)

/-- `resolveDefaults` from the source, with an explicit cache and clock. -/
def resolveDefaults (cache : DCache) (now : Int) (baseUrl : String)
    (rootFolders : List RootFolder) (profiles : List QualityProfile) :
    Except String Defaults × DCache :=
  match cache baseUrl with
  | some c =>
    if now - c.2 < cacheTTL then (.ok c.1, cache)
    else resolveDefaultsFresh cache now baseUrl rootFolders profiles
  | none => resolveDefaultsFresh cache now baseUrl rootFolders profiles

/-- Per-instance configuration. -/
structure InstanceConfig where
  baseUrl : String
  apiKey : String := ""
  rootFolderPath : Option String := none
  qualityProfileId : Option Int := none
deriving DecidableEq

/-- The defaults-resolution arm of create mode. -/
def requestBookCreateResolve (record : JRec) (cache : DCache) (now : Int)
    (inst : InstanceConfig) (rootFolders : List RootFolder) (profiles : List QualityProfile) :
    Except String JRec × List RCall :=
  match (resolveDefaults cache now inst.baseUrl rootFolders profiles).1 with
  | .error e => (.error e, [])
  | .ok d => (.ok (createPayload record d.rootFolderPath d.qualityProfileId), [RCall.createPost])

/-- Create mode of `requestBook` (later revision): require a lookup record,
use the configured defaults when both are set (after trimming the root
path), otherwise resolve the remote defaults; then post the create payload.
The returned call list holds the mutating calls that were issued. -/
def requestBookCreate (inst : InstanceConfig) (lookup : Option JRec) (cache : DCache)
    (now : Int) (rootFolders : List RootFolder) (profiles : List QualityProfile) :
    Except String JRec × List RCall :=
  match lookup with
  | none => (.error "Missing lookup data to add new book.", [])
  | some record =>
    match inst.rootFolderPath.map strTrim, inst.qualityProfileId with
    | some st, some q =>
      if st.isEmpty then requestBookCreateResolve record cache now inst rootFolders profiles
      else (.ok (createPayload record st q), [RCall.createPost])
    | some _, none => requestBookCreateResolve record cache now inst rootFolders profiles
    | none, _ => requestBookCreateResolve record cache now inst rootFolders profiles

/-- The effective lookup limit of `searchBooks` in the later revision:
finite configured values below 20 are floored to 20; `none` models an
unset or non-numeric configuration. -/
def lookupLimit (raw : Option Int) : Int :=
  match raw with
  | some v => if 20 ≤ v then v else 20
  | none => 20

/-- The effective lookup limit of `searchBooks` in the earlier revision
(readarrClient.ts): any positive finite configured value is used as-is. -/
def lookupLimitLegacy (raw : Option Int) : Int :=
  match raw with
  | some v => if 0 < v then v else 20
  | none => 20

/-- Modelled from the claim wording for comparison with `pickKey`: the
normalized value of the first field whose normalization is non-empty, in
the priority order foreign id, Goodreads id, ISBN-13, ISBN, ASIN; else the
title/author key when the normalized title is non-empty; else empty. -/
def pickKeySpec (b : RBook) : String :=
  match ((idFields b).map normalize).find? (fun v => !v.isEmpty) with
  | some v => "id:" ++ v
  | none =>
    if (normalize (jstrOfOptS b.title)).isEmpty then ""
    else "t:" ++ normalize (jstrOfOptS b.title) ++ "|a:" ++ normalize (.s (pickAuthor b))

/-- The invariant of ownership completeness for one instance view. -/
def viewInv (v : InstanceView) : Prop :=
  v.alreadyAdded = true → v.existingId.isSome = true ∧ v.monitored = some true ∧ v.hasFile = some true

/-- `viewInv` for both slots of an item. -/
def itemInv (it : SearchItem) : Prop := viewInv it.ebook ∧ viewInv it.audio

/-- `itemInv` for every item of a unified map. -/
def mapInv (m : IMap) : Prop := ∀ k it, m k = some it → itemInv it

/-- Invariant of the `lookupBooks` loop state: results are pairwise distinct
in lookup key and every result key is in the seen set. -/
def lbInv (seen : List String) (acc : List RBook) : Prop :=
  acc.Pairwise (fun a b => pickLookupKey a ≠ pickLookupKey b) ∧
  ∀ r ∈ acc, pickLookupKey r ∈ seen

/-- Concrete fixture: a lookup record identified by ISBN-13. -/
def duneBook : RBook := { title := some "Dune", isbn13 := .s "9780441013593" }

/-- The unified item produced from `duneBook` alone on the ebook side. -/
def duneItem : SearchItem :=
  { key := "id:9780441013593", title := "Dune", author := "Unknown author",
    isbn13 := some "9780441013593", foreignBookId := none, goodreadsId := none,
    ebook := { available := true, alreadyAdded := false, existingId := none,
               monitored := none, hasFile := none, lookup := some duneBook },
    audio := emptyView }

/-- Concrete fixture: a monitored owned record with a file, present in both
catalogs in the C5 counterexample. -/
def hobbitBook : RBook :=
  { id := some 1, title := some "The Hobbit", authorName := some "Tolkien",
    monitored := some true, bookFileId := some 5 }

/-- Concrete fixture: an owned but unmonitored record matched only by an
author substring. -/
def tolkienBook : RBook :=
  { id := some 2, title := some "The Silmarillion", authorName := some "J. R. R. Tolkien",
    monitored := some false, bookFileId := some 9 }

/-- Concrete fixture: an owned record whose `monitored` field is absent. -/
def unmonBook : RBook := { id := some 3, title := some "Emma", bookFileId := some 4 }

/-- Concrete fixture: a lookup record with the same identity as `unmonBook`. -/
def emmaLookup : RBook := { title := some "Emma" }

/-- Concrete fixture: an opaque lookup record for the create payload. -/
def recEx : JRec := [("title", Val.str "Dune"), ("id", Val.num 42), ("editions", Val.obj [])]

/-- Concrete fixture: an instance whose defaults are blank. -/
def instEx : InstanceConfig :=
  { baseUrl := "http://ebooks", rootFolderPath := some "   ", qualityProfileId := none }

/-- Concrete fixture: a remote that returns no lookup results on any page. -/
def pagesEmpty : Nat → List RBook := fun _ => []

theorem str_isEmpty_false (s : String) (h : s ≠ "") : s.isEmpty = false := by
  cases hs : s.isEmpty
  · rfl
  · exact absurd ((String.isEmpty_iff s).mp hs) h

theorem viewOf_setViewOf (inst : Inst) (it : SearchItem) (v : InstanceView) :
    viewOf inst (setViewOf inst it v) = v := by
  cases inst <;> rfl

theorem msetI_self (m : IMap) (k : String) (v : SearchItem) : msetI m k v k = some v := by
  simp [msetI]

theorem msetI_other (m : IMap) (k q : String) (v : SearchItem) (h : q ≠ k) :
    msetI m k v q = m q := by
  simp [msetI, h]

theorem firstIdKey_eq_find (xs : List JStr) :
    firstIdKey xs =
      ((xs.map normalize).find? (fun v => !v.isEmpty)).map (fun v => "id:" ++ v) := by
  induction xs with
  | nil => rfl
  | cons x rest ih =>
    simp only [firstIdKey, List.map_cons, List.find?_cons]
    cases h : (normalize x).isEmpty <;> simp [h, ih]

/-- Claim C2: the identity resolver returns `id:` plus the normalized value
of the first of foreign id, Goodreads id, ISBN-13, ISBN, ASIN whose
normalization is non-empty, in that priority order; when all five normalize
to empty it falls back to the title/author key if the normalized title is
non-empty, and otherwise returns the empty string. -/
theorem pickKey_refines_spec (b : RBook) : pickKey b = pickKeySpec b := by
  unfold pickKey pickKeySpec
  rw [firstIdKey_eq_find]
  cases h : ((idFields b).map normalize).find? (fun v => !v.isEmpty) <;> simp [h]

/-- Claim C3: in re-request mode, when the monitor toggle or the search
command succeeds the operation reports success and the fallback fetch and
full update are never issued; only when both fail is the fallback issued,
and then the reported outcome is exactly the fallback outcome. -/
theorem requestBook_rerequest_flow (m s f p : Bool) :
    ((m = true ∨ s = true) →
      (requestBookRR m s f p).success = true ∧
      RCall.fetch ∉ (requestBookRR m s f p).calls ∧
      RCall.putFull ∉ (requestBookRR m s f p).calls)
    ∧ (m = false → s = false →
      RCall.fetch ∈ (requestBookRR m s f p).calls ∧
      ((requestBookRR m s f p).success = true ↔ f = true ∧ p = true) ∧
      (RCall.putFull ∈ (requestBookRR m s f p).calls ↔ f = true)) := by
  cases m <;> cases s <;> cases f <;> cases p <;> decide

theorem requestBook_rerequest_flow_witness :
    (requestBookRR false true false false).success = true ∧
    RCall.fetch ∉ (requestBookRR false true false false).calls ∧
    RCall.putFull ∉ (requestBookRR false true false false).calls :=
  (requestBook_rerequest_flow false true false false).1 (Or.inr rfl)

/-- Counterexample to claim C6 as stated: in the earlier revision of
`searchBooks` a configured lookup limit of 5 is used as-is, below the
claimed floor of 20. -/
theorem lookupLimitLegacy_no_floor_cex :
    lookupLimitLegacy (some 5) = 5 ∧ lookupLimitLegacy (some 5) < 20 := by decide

/-- Claim C6 (amended): both revisions default the overall lookup limit to
20 when no configuration value is set; the later revision never drops below
the floor of 20 for any configured value, while the earlier revision uses
any positive finite configured value as-is, with no floor. -/
theorem lookupLimit_defaults :
    lookupLimit none = 20 ∧ lookupLimitLegacy none = 20
    ∧ (∀ raw : Option Int, 20 ≤ lookupLimit raw)
    ∧ (∀ v : Int, 0 < v → lookupLimitLegacy (some v) = v) := by
  refine ⟨rfl, rfl, ?_, ?_⟩
  · intro raw
    cases raw with
    | none => simp [lookupLimit]
    | some v =>
      simp only [lookupLimit]
      split <;> omega
  · intro v hv
    simp only [lookupLimitLegacy]
    rw [if_pos hv]

theorem lookupLimit_defaults_witness :
    0 < (5 : Int) ∧ lookupLimitLegacy (some 5) = 5 ∧ 20 ≤ lookupLimit (some 5) :=
  ⟨by decide, lookupLimit_defaults.2.2.2 5 (by decide), lookupLimit_defaults.2.2.1 (some 5)⟩

theorem getField_removeField_self (r : JRec) (k : String) :
    getField (removeField r k) k = none := by
  induction r with
  | nil => rfl
  | cons a t ih =>
    by_cases hak : a.1 = k
    · simpa [removeField, hak] using ih
    · simpa [removeField, getField, hak] using ih

theorem getField_removeField_other (r : JRec) (k q : String) (h : q ≠ k) :
    getField (removeField r k) q = getField r q := by
  induction r with
  | nil => rfl
  | cons a t ih =>
    by_cases hak : a.1 = k
    · have haq : ¬a.1 = q := fun hh => h (hh ▸ hak)
      simp only [removeField, if_pos hak, getField, if_neg haq]
      exact ih
    · by_cases haq : a.1 = q
      · simp [removeField, getField, hak, haq, h]
      · simp only [removeField, if_neg hak, getField, if_neg haq]
        exact ih

theorem getField_setField_self (r : JRec) (k : String) (v : Val) :
    getField (setField r k v) k = some v := by
  simp [setField, getField]

theorem getField_setField_other (r : JRec) (k q : String) (v : Val) (h : q ≠ k) :
    getField (setField r k v) q = getField r q := by
  have hkq : ¬(k = q) := fun hh => h hh.symm
  simp only [setField, getField]
  rw [if_neg hkq]
  exact getField_removeField_other r k q h

/-- Claim C7: the create payload preserves every field of the lookup record
other than the five it overrides, sets root folder, quality profile,
`monitored = true` and `addOptions.searchForNewBook = true`, and removes any
inbound `id` field. -/
theorem createPayload_shape (lookup : JRec) (rfp : String) (qpid : Int) :
    (∀ k, k ∉ ["rootFolderPath", "qualityProfileId", "monitored", "addOptions", "id"] →
      getField (createPayload lookup rfp qpid) k = getField lookup k)
    ∧ getField (createPayload lookup rfp qpid) "rootFolderPath" = some (.str rfp)
    ∧ getField (createPayload lookup rfp qpid) "qualityProfileId" = some (.num qpid)
    ∧ getField (createPayload lookup rfp qpid) "monitored" = some (.boolv true)
    ∧ getField (createPayload lookup rfp qpid) "addOptions"
        = some (.obj [("searchForNewBook", .boolv true)])
    ∧ getField (createPayload lookup rfp qpid) "id" = none := by
  unfold createPayload
  refine ⟨?_, ?_, ?_, ?_, ?_, ?_⟩
  · intro k hk
    simp only [List.mem_cons, List.not_mem_nil, or_false, not_or] at hk
    obtain ⟨h1, h2, h3, h4, h5⟩ := hk
    rw [getField_removeField_other _ _ _ h5, getField_setField_other _ _ _ _ h4,
      getField_setField_other _ _ _ _ h3, getField_setField_other _ _ _ _ h2,
      getField_setField_other _ _ _ _ h1]
  · rw [getField_removeField_other _ _ _ (by decide), getField_setField_other _ _ _ _ (by decide),
      getField_setField_other _ _ _ _ (by decide), getField_setField_other _ _ _ _ (by decide),
      getField_setField_self]
  · rw [getField_removeField_other _ _ _ (by decide), getField_setField_other _ _ _ _ (by decide),
      getField_setField_other _ _ _ _ (by decide), getField_setField_self]
  · rw [getField_removeField_other _ _ _ (by decide), getField_setField_other _ _ _ _ (by decide),
      getField_setField_self]
  · rw [getField_removeField_other _ _ _ (by decide), getField_setField_self]
  · exact getField_removeField_self _ _

theorem createPayload_shape_witness :
    getField (createPayload recEx "/books" 7) "editions" = getField recEx "editions"
    ∧ getField (createPayload recEx "/books" 7) "monitored" = some (.boolv true)
    ∧ getField (createPayload recEx "/books" 7) "id" = none :=
  ⟨(createPayload_shape recEx "/books" 7).1 "editions" (by decide),
   (createPayload_shape recEx "/books" 7).2.2.2.1,
   (createPayload_shape recEx "/books" 7).2.2.2.2.2⟩

/-- Claim C9: in create mode with the configured defaults blank and an empty
remote root-folder listing (and no fresh cache entry), the operation fails
with the root-folder configuration error and no create call is issued. -/
theorem requestBookCreate_empty_rootfolders (inst : InstanceConfig) (record : JRec)
    (cache : DCache) (now : Int) (profiles : List QualityProfile)
    (hroot : strTrim (inst.rootFolderPath.getD "") = "")
    (hq : inst.qualityProfileId = none)
    (hcache : cache inst.baseUrl = none) :
    requestBookCreate inst (some record) cache now [] profiles
      = (.error rootErrorMsg, []) := by
  have hres : requestBookCreateResolve record cache now inst [] profiles
      = (.error rootErrorMsg, []) := by
    unfold requestBookCreateResolve resolveDefaults
    rw [hcache]
    rfl
  cases hrf : inst.rootFolderPath with
  | none => simp [requestBookCreate, hrf, hq, hres]
  | some s => simp [requestBookCreate, hrf, hq, hres]

theorem requestBookCreate_empty_rootfolders_witness :
    requestBookCreate instEx (some recEx) (fun _ => none) 0 [] []
      = (.error rootErrorMsg, []) :=
  requestBookCreate_empty_rootfolders instEx recEx (fun _ => none) 0 [] (by decide) rfl rfl

theorem viewInv_emptyView : viewInv emptyView := by
  intro h
  exact absurd h (by decide)

theorem itemInv_seedItem (k : String) (b : RBook) : itemInv (seedItem k b) :=
  ⟨viewInv_emptyView, viewInv_emptyView⟩

theorem viewInv_lookupView (ex : Option ExistingInfo) (b : RBook) :
    viewInv (lookupView ex b) := by
  cases ex with
  | none => intro h; exact absurd h (by simp [lookupView])
  | some e =>
    intro h
    simp only [lookupView] at h ⊢
    rw [Bool.and_eq_true] at h
    exact ⟨by simp, by simp [h.1], by simp [h.2]⟩

theorem viewInv_sweepView (e : ExistingInfo) : viewInv (sweepView e) := by
  intro h
  simp only [sweepView] at h ⊢
  rw [Bool.and_eq_true] at h
  exact ⟨rfl, by rw [h.1], by rw [h.2]⟩

theorem itemInv_setViewOf (inst : Inst) (it : SearchItem) (v : InstanceView)
    (hi : itemInv it) (hv : viewInv v) : itemInv (setViewOf inst it v) := by
  cases inst
  · exact ⟨hv, hi.2⟩
  · exact ⟨hi.1, hv⟩

theorem mapInv_msetI (m : IMap) (k : String) (v : SearchItem)
    (hm : mapInv m) (hv : itemInv v) : mapInv (msetI m k v) := by
  intro q it h
  unfold msetI at h
  split at h
  · injection h with h2
    exact h2 ▸ hv
  · exact hm _ _ h

theorem mapInv_ingestStep (emap : EMap) (inst : Inst) (items : IMap) (b : RBook)
    (hm : mapInv items) : mapInv (ingestStep emap inst items b) := by
  unfold ingestStep
  split
  · exact hm
  · apply mapInv_msetI _ _ _ hm
    apply itemInv_setViewOf
    · cases hi : items (pickKey b) with
      | some old => simpa [hi] using hm _ _ hi
      | none => simpa [hi] using itemInv_seedItem (pickKey b) b
    · exact viewInv_lookupView _ _

theorem mapInv_addExistingStep (emap : EMap) (inst : Inst) (term : String) (items : IMap)
    (b : RBook) (hm : mapInv items) : mapInv (addExistingStep emap inst term items b) := by
  unfold addExistingStep
  split
  · exact hm
  · split
    · exact hm
    · split
      · exact hm
      · split
        · exact hm
        · exact mapInv_msetI _ _ _ hm
            (itemInv_setViewOf _ _ _ (itemInv_seedItem _ _) (viewInv_sweepView _))

theorem mapInv_foldl {α : Type} (step : IMap → α → IMap)
    (hstep : ∀ m a, mapInv m → mapInv (step m a)) :
    ∀ (l : List α) (m : IMap), mapInv m → mapInv (l.foldl step m) := by
  intro l
  induction l with
  | nil => intro m hm; exact hm
  | cons a t ih => intro m hm; exact ih _ (hstep m a hm)

theorem mapInv_emptyIMap : mapInv emptyIMap := by
  intro k it h
  exact absurd h (by simp [emptyIMap])

/-- Claim C1: every item produced by the search merge satisfies, on both of
its instance views, that `alreadyAdded = true` implies the existing id is
set, `monitored = some true` and `hasFile = some true`. -/
theorem mergeSearch_alreadyAdded_complete (eL aL eC aC : List RBook) (term k : String)
    (it : SearchItem) (h : mergeSearch eL aL eC aC term k = some it) :
    viewInv it.ebook ∧ viewInv it.audio := by
  have hinv : mapInv (mergeSearch eL aL eC aC term) := by
    unfold mergeSearch ingest addExistingMatches
    apply mapInv_foldl _ (fun m a hm => mapInv_addExistingStep _ _ _ m a hm)
    apply mapInv_foldl _ (fun m a hm => mapInv_addExistingStep _ _ _ m a hm)
    apply mapInv_foldl _ (fun m a hm => mapInv_ingestStep _ _ m a hm)
    apply mapInv_foldl _ (fun m a hm => mapInv_ingestStep _ _ m a hm)
    exact mapInv_emptyIMap
  exact hinv k it h

theorem mergeSearch_alreadyAdded_complete_witness :
    viewInv duneItem.ebook ∧ viewInv duneItem.audio :=
  mergeSearch_alreadyAdded_complete [duneBook] [] [] [] "x" "id:9780441013593" duneItem
    (by decide)

theorem procPage_lbInv (limit : Nat) :
    ∀ (data : List RBook) (seen : List String) (acc : List RBook) (added : Nat),
      lbInv seen acc →
      lbInv (procPage limit data seen acc added).seen (procPage limit data seen acc added).results := by
  intro data
  induction data with
  | nil => intro seen acc added h; exact h
  | cons b rest ih =>
    intro seen acc added h
    simp only [procPage]
    split
    · exact ih _ _ _ h
    · rename_i hcont
      have hnotin : pickLookupKey b ∉ seen := fun hmem =>
        hcont (List.elem_iff.mpr hmem)
      have hinv2 : lbInv (pickLookupKey b :: seen) (acc ++ [b]) := by
        constructor
        · rw [List.pairwise_append]
          refine ⟨h.1, by simp, ?_⟩
          intro a ha b2 hb2
          rw [List.mem_singleton] at hb2
          subst hb2
          intro heq
          exact hnotin (heq ▸ h.2 a ha)
        · intro r hr
          rw [List.mem_append] at hr
          cases hr with
          | inl hr0 => exact List.mem_cons_of_mem _ (h.2 r hr0)
          | inr hr1 =>
            rw [List.mem_singleton] at hr1
            subst hr1
            exact List.mem_cons_self _ _
      split
      · exact hinv2
      · exact ih _ _ _ hinv2

theorem lbGo_pairwise (pages : Nat → List RBook) (limit : Nat) :
    ∀ (fuel page : Nat) (seen : List String) (acc : List RBook),
      lbInv seen acc →
      (lbGo pages limit fuel page seen acc).Pairwise
        (fun a b => pickLookupKey a ≠ pickLookupKey b) := by
  intro fuel
  induction fuel with
  | zero => intro page seen acc h; exact h.1
  | succ n ih =>
    intro page seen acc h
    simp only [lbGo]
    split
    · exact h.1
    · have hp := procPage_lbInv limit (pages page) seen acc 0 h
      split
      · exact hp.1
      · split
        · exact hp.1
        · exact ih _ _ _ hp

/-- Claim C4: `lookupBooks` never returns two records with the same resolved
lookup identity: its output is pairwise distinct under `pickLookupKey`, the
identity function used for dedup during pagination. -/
theorem lookupBooks_dedup_complete (pages : Nat → List RBook) (limit : Nat) :
    (lookupBooks pages limit).Pairwise (fun a b => pickLookupKey a ≠ pickLookupKey b) :=
  lbGo_pairwise pages limit (maxPages limit) 1 [] [] ⟨List.Pairwise.nil, by simp⟩

theorem procPage_length (limit : Nat) :
    ∀ (data : List RBook) (seen : List String) (acc : List RBook) (added : Nat),
      acc.length < limit →
      (procPage limit data seen acc added).results.length ≤ limit ∧
      ((procPage limit data seen acc added).reached = false →
        (procPage limit data seen acc added).results.length < limit) := by
  intro data
  induction data with
  | nil => intro seen acc added h; exact ⟨Nat.le_of_lt h, fun _ => h⟩
  | cons b rest ih =>
    intro seen acc added h
    simp only [procPage]
    split
    · exact ih _ _ _ h
    · split
      · constructor
        · simp only [List.length_append, List.length_singleton]
          omega
        · intro hr
          simp at hr
      · rename_i hlim
        apply ih
        simp only [List.length_append, List.length_singleton] at *
        omega

theorem lbGo_length (pages : Nat → List RBook) (limit : Nat) :
    ∀ (fuel page : Nat) (seen : List String) (acc : List RBook),
      acc.length < limit → (lbGo pages limit fuel page seen acc).length ≤ limit := by
  intro fuel
  induction fuel with
  | zero => intro page seen acc h; exact Nat.le_of_lt h
  | succ n ih =>
    intro page seen acc h
    simp only [lbGo]
    split
    · exact Nat.le_of_lt h
    · have hp := procPage_length limit (pages page) seen acc 0 h
      split
      · exact hp.1
      · split
        · exact hp.1
        · rename_i hreach _
          apply ih
          apply hp.2
          revert hreach
          cases (procPage limit (pages page) seen acc 0).reached <;> simp

/-- Claim C8: `lookupBooks` always terminates (it is a total function of the
page oracle) and returns at most `limit` records; the page loop stops
immediately on an empty page, stops immediately when the limit is reached
while processing a page, and stops immediately when a page contributes zero
new identities. -/
theorem lookupBooks_bounded_stops (pages : Nat → List RBook) (limit : Nat) (h : 1 ≤ limit) :
    (lookupBooks pages limit).length ≤ limit
    ∧ (∀ fuel page seen acc, pages page = [] →
        lbGo pages limit (fuel + 1) page seen acc = acc)
    ∧ (∀ fuel page seen acc, (procPage limit (pages page) seen acc 0).reached = true →
        lbGo pages limit (fuel + 1) page seen acc
          = (procPage limit (pages page) seen acc 0).results)
    ∧ (∀ fuel page seen acc, (procPage limit (pages page) seen acc 0).reached = false →
        (procPage limit (pages page) seen acc 0).added = 0 →
        lbGo pages limit (fuel + 1) page seen acc
          = (procPage limit (pages page) seen acc 0).results) := by
  refine ⟨?_, ?_, ?_, ?_⟩
  · exact lbGo_length pages limit (maxPages limit) 1 [] [] h
  · intro fuel page seen acc hpage
    simp [lbGo, hpage]
  · intro fuel page seen acc hreach
    have hne : (pages page).isEmpty = false := by
      cases hd : pages page with
      | nil =>
        rw [hd] at hreach
        exact absurd hreach (by simp [procPage])
      | cons x xs => simp
    simp [lbGo, hne, hreach]
  · intro fuel page seen acc hreach hadd
    cases hd : pages page with
    | nil => simp [lbGo, hd, procPage]
    | cons x xs =>
      rw [hd] at hreach hadd
      simp [lbGo, hd, hreach, hadd]

theorem lookupBooks_bounded_stops_witness :
    (lookupBooks pagesEmpty 20).length ≤ 20 :=
  (lookupBooks_bounded_stops pagesEmpty 20 (by decide)).1

/-- Counterexample to claim C5 as stated: a record owned by both backends
that matches the term and whose identity is absent from the lookup step is
added by the ebook catalog sweep only; the audio sweep then skips it, so
the audio view stays `available = false` although the claim requires
`available = true` for that backend as well. -/
theorem catalogSweep_lookupStep_cex :
    matchesTerm "hobbit" hobbitBook = true
    ∧ (ingest (ingest emptyIMap [] (mapExisting [hobbitBook]) Inst.ebook) []
        (mapExisting [hobbitBook]) Inst.audio) "t:the hobbit|a:tolkien" = none
    ∧ ((mergeSearch [] [] [hobbitBook] [hobbitBook] "hobbit") "t:the hobbit|a:tolkien").map
        (fun it => (viewOf Inst.ebook it).available) = some true
    ∧ ((mergeSearch [] [] [hobbitBook] [hobbitBook] "hobbit") "t:the hobbit|a:tolkien").map
        (fun it => (viewOf Inst.audio it).available) = some false := by decide

theorem addExistingStep_at_other (emap : EMap) (inst : Inst) (term : String)
    (items : IMap) (c : RBook) (q : String) (hq : pickKey c ≠ q) :
    addExistingStep emap inst term items c q = items q := by
  unfold addExistingStep
  split
  · rfl
  · split
    · rfl
    · split
      · rfl
      · cases he2 : emap (pickKey c) with
        | none => rfl
        | some e2 => exact msetI_other _ _ _ _ (fun hh => hq hh.symm)

theorem addExisting_fold (emap : EMap) (inst : Inst) (term : String) (k : String)
    (e : ExistingInfo) (hke : emap k = some e) (hk : k ≠ "") :
    ∀ (books : List RBook) (items : IMap),
      ((∃ it, items k = some it ∧ viewOf inst it = sweepView e) ∨
        (items k = none ∧ ∃ b ∈ books, pickKey b = k ∧ matchesTerm term b = true)) →
      ∃ it, (books.foldl (addExistingStep emap inst term) items) k = some it ∧
        viewOf inst it = sweepView e := by
  intro books
  induction books with
  | nil =>
    intro items h
    cases h with
    | inl h0 => exact h0
    | inr h0 =>
      obtain ⟨_, b, hb, _⟩ := h0
      exact absurd hb (List.not_mem_nil b)
  | cons c rest ih =>
    intro items h
    simp only [List.foldl_cons]
    by_cases hkey : pickKey c = k
    · by_cases hm : matchesTerm term c = true
      · cases hit : items k with
        | some it0 =>
          have htarget : viewOf inst it0 = sweepView e := by
            cases h with
            | inl h0 =>
              obtain ⟨it1, hit1, hv⟩ := h0
              rw [hit] at hit1
              injection hit1 with h2
              exact h2 ▸ hv
            | inr h0 =>
              rw [h0.1] at hit
              exact absurd hit (by simp)
          have hstep : addExistingStep emap inst term items c = items := by
            unfold addExistingStep
            rw [hkey]
            simp [hm, hit]
          rw [hstep]
          exact ih items (Or.inl ⟨it0, hit, htarget⟩)
        | none =>
          have hstep : addExistingStep emap inst term items c =
              msetI items k (setViewOf inst (seedItem k c) (sweepView e)) := by
            unfold addExistingStep
            rw [hkey]
            simp [hm, hit, hke, str_isEmpty_false k hk]
          rw [hstep]
          apply ih
          apply Or.inl
          exact ⟨_, msetI_self _ _ _, viewOf_setViewOf _ _ _⟩
      · have hstep : addExistingStep emap inst term items c = items := by
          unfold addExistingStep
          have hm2 : matchesTerm term c = false := by
            revert hm
            cases matchesTerm term c <;> simp
          rw [hm2]
          rfl
        rw [hstep]
        apply ih
        cases h with
        | inl h0 => exact Or.inl h0
        | inr h0 =>
          obtain ⟨hnone, b, hb, hbk, hbm⟩ := h0
          rcases List.mem_cons.mp hb with hbc | hbr
          · subst hbc
            exact absurd hbm hm
          · exact Or.inr ⟨hnone, b, hbr, hbk, hbm⟩
    · have hpres : addExistingStep emap inst term items c k = items k :=
        addExistingStep_at_other emap inst term items c k hkey
      apply ih
      cases h with
      | inl h0 =>
        obtain ⟨it0, hit0, hv⟩ := h0
        exact Or.inl ⟨it0, hpres ▸ hit0, hv⟩
      | inr h0 =>
        obtain ⟨hnone, b, hb, hbk, hbm⟩ := h0
        rcases List.mem_cons.mp hb with hbc | hbr
        · subst hbc
          exact absurd hbk hkey
        · exact Or.inr ⟨hpres ▸ hnone, b, hbr, hbk, hbm⟩

/-- Claim C5 (amended): an owned catalog record that matches the search term,
has a resolvable identity that is indexed in the catalog, and whose identity
is not yet in the unified map at the time of that backend's catalog sweep,
yields an output entry whose view for that backend has `available = true`,
`lookup` unset, `existingId` set, and `monitored` and `hasFile` carried from
the catalog entry, with `alreadyAdded` equal to their conjunction (so an
unmonitored owned record appears with `alreadyAdded = false`). -/
theorem addExistingMatches_adds (term : String) (books : List RBook) (emap : EMap)
    (items0 : IMap) (inst : Inst) (b : RBook) (e : ExistingInfo)
    (hb : b ∈ books) (hm : matchesTerm term b = true) (hk : pickKey b ≠ "")
    (he : emap (pickKey b) = some e) (h0 : items0 (pickKey b) = none) :
    ∃ it, addExistingMatches items0 books emap inst term (pickKey b) = some it ∧
      viewOf inst it = { available := true, alreadyAdded := e.monitored && e.hasFile,
                         existingId := some e.id, monitored := some e.monitored,
                         hasFile := some e.hasFile, lookup := none } := by
  unfold addExistingMatches
  exact addExisting_fold emap inst term (pickKey b) e he hk books items0
    (Or.inr ⟨h0, b, hb, rfl, hm⟩)

theorem addExistingMatches_adds_witness :
    ∃ it, addExistingMatches emptyIMap [tolkienBook] (mapExisting [tolkienBook]) Inst.audio
        "tolkien" (pickKey tolkienBook) = some it ∧
      viewOf Inst.audio it = { available := true, alreadyAdded := false && true,
                               existingId := some 2, monitored := some false,
                               hasFile := some true, lookup := none } :=
  addExistingMatches_adds "tolkien" [tolkienBook] (mapExisting [tolkienBook]) emptyIMap
    Inst.audio tolkienBook ⟨2, false, true⟩ (by decide) (by decide) (by decide) (by decide) rfl

theorem msetE_other (m : EMap) (k q : String) (v : ExistingInfo) (h : q ≠ k) :
    msetE m k v q = m q := by
  simp [msetE, h]

theorem mapExistingStep_write (m : EMap) (c : RBook) (i : Int) (hid : c.id = some i)
    (hk : pickKey c ≠ "") :
    mapExistingStep m c (pickKey c) = some ⟨i, c.monitored.getD true, hasFile c⟩ := by
  simp only [mapExistingStep, hid]
  rw [if_neg (by simp [str_isEmpty_false _ hk])]
  simp [msetE]

theorem mapExistingStep_at_other (m : EMap) (c : RBook) (k : String)
    (h : pickKey c ≠ k ∨ c.id = none) : mapExistingStep m c k = m k := by
  cases hid : c.id with
  | none => simp [mapExistingStep, hid]
  | some i =>
    simp only [mapExistingStep, hid]
    cases h with
    | inr h0 =>
      rw [hid] at h0
      exact absurd h0 (by simp)
    | inl h0 =>
      by_cases hke : (pickKey c).isEmpty
      · rw [if_pos hke]
      · rw [if_neg hke]
        exact msetE_other _ _ _ _ (fun hh => h0 hh.symm)

theorem mapExisting_fold_keep (k : String) (b : RBook) (i : Int) (hk : k ≠ "")
    (hbm : b.monitored = none) (hid : b.id = some i) :
    ∀ (l : List RBook) (m : EMap),
      (∀ c ∈ l, pickKey c = k → c.id.isSome = true → c = b) →
      m k = some ⟨i, true, hasFile b⟩ →
      (l.foldl mapExistingStep m) k = some ⟨i, true, hasFile b⟩ := by
  intro l
  induction l with
  | nil => intro m _ hm; exact hm
  | cons c rest ih =>
    intro m huniq hm
    simp only [List.foldl_cons]
    apply ih _ (fun c2 hc2 => huniq c2 (List.mem_cons_of_mem _ hc2))
    by_cases hck : pickKey c = k
    · cases hcid : c.id with
      | none => rw [mapExistingStep_at_other m c k (Or.inr hcid)]; exact hm
      | some j =>
        have hcb : c = b := huniq c (List.mem_cons_self _ _) hck (by simp [hcid])
        subst hcb
        rw [hid] at hcid
        injection hcid with hij
        subst hij
        have hw := mapExistingStep_write m c i hid (by rw [hck]; exact hk)
        rw [hck] at hw
        rw [hw, hbm]
        rfl
    · rw [mapExistingStep_at_other m c k (Or.inl hck)]; exact hm

theorem mapExisting_fold_reach (k : String) (b : RBook) (i : Int) (hk : k ≠ "")
    (hbk : pickKey b = k) (hbm : b.monitored = none) (hid : b.id = some i) :
    ∀ (l : List RBook) (m : EMap),
      b ∈ l →
      (∀ c ∈ l, pickKey c = k → c.id.isSome = true → c = b) →
      (l.foldl mapExistingStep m) k = some ⟨i, true, hasFile b⟩ := by
  intro l
  induction l with
  | nil => intro m hb _; exact absurd hb (List.not_mem_nil b)
  | cons c rest ih =>
    intro m hb huniq
    simp only [List.foldl_cons]
    by_cases hcb : c = b
    · subst hcb
      apply mapExisting_fold_keep k c i hk hbm hid rest _
        (fun c2 hc2 => huniq c2 (List.mem_cons_of_mem _ hc2))
      have hw := mapExistingStep_write m c i hid (by rw [hbk]; exact hk)
      rw [hbk] at hw
      rw [hw, hbm]
      rfl
    · rcases List.mem_cons.mp hb with h1 | h2
      · exact absurd h1.symm hcb
      · exact ih _ h2 (fun c2 hc2 => huniq c2 (List.mem_cons_of_mem _ hc2))

theorem ingest_fold_view (emap : EMap) (inst : Inst) (k : String) (e : ExistingInfo)
    (hk : k ≠ "") (he : emap k = some e) (hmf : (e.monitored && e.hasFile) = true) :
    ∀ (L : List RBook) (items : IMap),
      ((∃ l ∈ L, pickKey l = k) ∨
        (∃ it, items k = some it ∧ (viewOf inst it).alreadyAdded = true)) →
      ∃ it, (L.foldl (ingestStep emap inst) items) k = some it ∧
        (viewOf inst it).alreadyAdded = true := by
  intro L
  induction L with
  | nil =>
    intro items h
    cases h with
    | inl h0 =>
      obtain ⟨l, hl, _⟩ := h0
      exact absurd hl (List.not_mem_nil l)
    | inr h0 => exact h0
  | cons c rest ih =>
    intro items h
    simp only [List.foldl_cons]
    by_cases hck : pickKey c = k
    · apply ih
      apply Or.inr
      have hstep : (ingestStep emap inst items c) k =
          some (setViewOf inst ((items k).getD (seedItem k c)) (lookupView (emap k) c)) := by
        unfold ingestStep
        rw [hck, if_neg (by rw [str_isEmpty_false k hk]; simp)]
        exact msetI_self _ _ _
      refine ⟨_, hstep, ?_⟩
      rw [viewOf_setViewOf, he]
      simpa [lookupView] using hmf
    · have hpres : (ingestStep emap inst items c) k = items k := by
        unfold ingestStep
        split
        · rfl
        · exact msetI_other _ _ _ _ (fun hh => hck hh.symm)
      apply ih
      cases h with
      | inl h0 =>
        obtain ⟨l, hl, hlk⟩ := h0
        rcases List.mem_cons.mp hl with h1 | h2
        · subst h1
          exact absurd hlk hck
        · exact Or.inl ⟨l, h2, hlk⟩
      | inr h0 => exact Or.inr (hpres ▸ h0)

/-- Claim C10: an owned record with a resolvable identity and a numeric id
whose `monitored` field is absent is indexed with `monitored = true`; when
it also has file evidence, any lookup record with the same identity is
merged into a view with `alreadyAdded = true`.  The uniqueness hypothesis
pins the indexed entry to this record (the index is last-write-wins). -/
theorem mapExisting_monitored_default (books : List RBook) (b : RBook) (i : Int)
    (hb : b ∈ books) (hid : b.id = some i) (hmon : b.monitored = none)
    (hk : pickKey b ≠ "")
    (huniq : ∀ c ∈ books, pickKey c = pickKey b → c.id.isSome = true → c = b) :
    mapExisting books (pickKey b) = some ⟨i, true, hasFile b⟩
    ∧ (hasFile b = true →
        ∀ (items : IMap) (L : List RBook) (inst : Inst) (l : RBook),
          l ∈ L → pickKey l = pickKey b →
          ∃ it, (ingest items L (mapExisting books) inst) (pickKey b) = some it ∧
            (viewOf inst it).alreadyAdded = true) := by
  have h1 : mapExisting books (pickKey b) = some ⟨i, true, hasFile b⟩ :=
    mapExisting_fold_reach (pickKey b) b i hk rfl hmon hid books emptyEMap hb huniq
  refine ⟨h1, ?_⟩
  intro hf items L inst l hl hlk
  unfold ingest
  exact ingest_fold_view (mapExisting books) inst (pickKey b) ⟨i, true, hasFile b⟩ hk h1
    (by simp [hf]) L items (Or.inl ⟨l, hl, hlk⟩)

theorem mapExisting_monitored_default_witness :
    mapExisting [unmonBook] (pickKey unmonBook) = some ⟨3, true, hasFile unmonBook⟩
    ∧ (∃ it, (ingest emptyIMap [emmaLookup] (mapExisting [unmonBook]) Inst.ebook)
          (pickKey unmonBook) = some it ∧ (viewOf Inst.ebook it).alreadyAdded = true) := by
  have h := mapExisting_monitored_default [unmonBook] unmonBook 3 (by decide) rfl rfl
    (by decide) (by decide)
  exact ⟨h.1, h.2 (by decide) emptyIMap [emmaLookup] Inst.ebook emmaLookup (by decide) (by decide)⟩

end BookRequests
